import Mathlib

/-!
Verification development for the training core of `torchbeast/polybeast.py`
(spiralpp).  Shallow embedding of the parts of the program the claims are
about: the `ReplayBuffer`, the policy learner's reward pipeline, the loss
aggregation helpers, the discriminator reward correction, the checkpoint
save/restore record, the monitor-loop shutdown sequencing, and the
discriminator learner's replay-buffer fill phase.
-/

namespace Polybeast

/-! ## ReplayBuffer (polybeast.py lines 184-222)

The Python buffer is a plain list that may temporarily hold `None`
placeholders (from `list.extend`), so the store is modelled as
`List (Option α)`; stored frames are `some` entries.  Python slice
assignment `l[a:b] = xs` is modelled by `setSlice`. -/

/-- Python slice assignment `l[a:b] = xs` (for `0 ≤ a`, `0 ≤ b`): the slice
`l[a:b]` is replaced by `xs`; when `b < a` the slice is empty and `xs` is
inserted at position `a`; indices are clamped to the list length. -/
def setSlice {α : Type} (l : List α) (a b : ℕ) (xs : List α) : List α :=
  l.take a ++ xs ++ l.drop (max a b)

/-- State of `ReplayBuffer`: the backing list `buffer`, the fixed `capacity`,
and the write `position` (`__init__`, lines 185-189). -/
structure ReplayBuffer (α : Type) where
  buffer : List (Option α)
  capacity : ℕ
  position : ℕ
deriving DecidableEq, Repr

/-- A freshly constructed `ReplayBuffer(capacity)`: empty list, position 0. -/
def ReplayBuffer.empty (α : Type) (capacity : ℕ) : ReplayBuffer α :=
  ⟨[], capacity, 0⟩

/-- `ReplayBuffer.push` (lines 191-214).  `frame.split(1)` turns the incoming
batch into the list of its single frames, which is the `frame : List α`
argument here.  Faithful transcription:
`request = len(frames)`; `free = capacity - position`;
`available = len(buffer) - position`; conditional `extend` with `None`
placeholders; a single wrap when `request > free`; final
`position = (position + request) % capacity`. -/
def ReplayBuffer.push {α : Type} (rb : ReplayBuffer α) (frame : List α) :
    ReplayBuffer α :=
  let frames := frame.map some
  let request := frames.length
  let free := rb.capacity - rb.position
  let available := rb.buffer.length - rb.position
  let buf0 :=
    if available < free then
      rb.buffer ++ List.replicate (if rb.capacity < request then free else request)
        (none : Option α)
    else rb.buffer
  if free < request then
    let buf1 := setSlice buf0 rb.position buf0.length (frames.take free)
    let frames1 := frames.drop free
    let request1 := request - free
    let buf2 := setSlice buf1 0 request1 frames1
    { rb with buffer := buf2, position := request1 % rb.capacity }
  else
    let buf1 := setSlice buf0 rb.position (rb.position + request) frames
    { rb with buffer := buf1, position := (rb.position + request) % rb.capacity }

/-- `ReplayBuffer.sample` (lines 216-219) calls `random.sample(buffer, k)`,
which returns `k` elements drawn at `k` pairwise-distinct list positions.
The random choice is modelled by the index-selection function `sel`; the
distinctness `random.sample` guarantees is the `Function.Injective sel`
hypothesis of the theorems below. -/
def ReplayBuffer.sample {α : Type} (rb : ReplayBuffer α) (k : ℕ)
    (sel : Fin k → Fin rb.buffer.length) : List (Option α) :=
  List.ofFn (fun i => rb.buffer.get (sel i))

/-- `ReplayBuffer.__len__` (lines 221-222): `len(self.buffer)`. -/
def ReplayBuffer.size {α : Type} (rb : ReplayBuffer α) : ℕ :=
  rb.buffer.length

/-- Total number of frames in a sequence of push requests. -/
def totalLen {α : Type} (pushes : List (List α)) : ℕ :=
  (pushes.map List.length).sum

/-- Side condition under which the amended C2 statement holds: each push's
frame count is at most `2·capacity − position`, where `position` (equal to
`total % capacity` at that moment) is the write position seen by that push.
Equivalently: after the wrap, the remaining part of the request never
exceeds the capacity. -/
def safePushes {α : Type} (c : ℕ) : ℕ → List (List α) → Bool
  | _, [] => true
  | tot, f :: rest =>
      decide (f.length ≤ 2 * c - tot % c) && safePushes c (tot + f.length) rest

/-! ## Discriminator reward correction (polybeast.py lines 246-248)

`reward_func(p)` first rectifies `p + 1e-12` and then takes
`log(p') − log(1 − p')`.  Embedded over `ℝ` with Mathlib's `Real.log`. -/

/-- `F.relu`. -/
noncomputable def relu (x : ℝ) : ℝ := max x 0

/-- The constant `1e-12` of line 247. -/
noncomputable def eps : ℝ := 1 / 10 ^ 12

/-- `reward_func` (lines 246-248): `p = F.relu(p + 1e-12)`, then
`p.log() - (1 - p).log()`. -/
noncomputable def reward_func (p : ℝ) : ℝ :=
  Real.log (relu (p + eps)) - Real.log (1 - relu (p + eps))

/-- Modelled from the spec's words (for comparison with `reward_func`):
`log(relu(p)+ε) − log(relu(1−p)+ε)`, the formula the specification states,
with relu applied to each branch separately and ε added after the relu. -/
noncomputable def rewardFuncSpec (p : ℝ) : ℝ :=
  Real.log (relu p + eps) - Real.log (relu (1 - p) + eps)

/-! ## Loss aggregation (polybeast.py lines 158-159 and 365-367)

Tensors enter these functions only through elementwise squaring and a global
sum, so the `T × B` advantage tensor is embedded as the flat list of its
entries, over exact rationals. -/

/-- `compute_baseline_loss` (lines 158-159): `0.5 * torch.sum(advantages ** 2)`. -/
def compute_baseline_loss (advantages : List ℚ) : ℚ :=
  (1 / 2) * (advantages.map (fun a => a ^ 2)).sum

/-- The baseline component of the total loss (lines 365-367):
`flags.baseline_cost * compute_baseline_loss(vtrace_returns.vs - learner_outputs.baseline)`. -/
def baselineLossTerm (baseline_cost : ℚ) (vs baseline : List ℚ) : ℚ :=
  baseline_cost * compute_baseline_loss (List.zipWith (fun a b => a - b) vs baseline)

/-- Modelled from the spec's words (for comparison with `baselineLossTerm`):
the mean of the squared errors (mean-squared error over all retained
timesteps and actors). -/
def meanSquaredErrorSpec (errors : List ℚ) : ℚ :=
  ((errors.map (fun a => a ^ 2)).sum) / errors.length

/-! ## The policy learner's reward pipeline (polybeast.py lines 277-353)

Time-major `T × B` tensors are embedded as `List (List _)` (outer list:
time).  The discriminator `D` and the correction `reward_func` enter the
pipeline only as functions, so they are parameters (`D : γ → ℚ`,
`rf : ℚ → ℚ`); `γ` is the type of one canvas.

Key point of the embedding (line 317): after the optional reward shaping,
the code runs `env_outputs = list(env_outputs); env_outputs[1] += reward;
env_outputs = tuple(env_outputs)`.  `env_outputs[1]` and `reward` are the
*same* tensor object (unpacked on line 278), and `+=` is an in-place add,
so this step adds the reward tensor to itself: every entry of the reward
channel is doubled.  V-trace then receives `env_outputs.reward` after the
alignment shift `t[1:]` (lines 331-350). -/

/-- `done[1:].any()` (line 280). -/
def anyDone (g : List (List Bool)) : Bool :=
  g.any (fun row => row.any (fun d => d))

/-- Elementwise sum of two `T × B` grids (in-place tensor `+=`). -/
def gridAdd (a b : List (List ℚ)) : List (List ℚ) :=
  List.zipWith (List.zipWith (fun x y => x + y)) a b

/-- Discriminator scores of all canvases:
`D(flat_frame).view(-1, batch_size)` (lines 291, 306). -/
def scoreGrid {γ : Type} (D : γ → ℚ) (canvas : List (List γ)) : List (List ℚ) :=
  canvas.map (fun row => row.map D)

/-- The score grid after the in-place boundary splice of lines 295-301:
`p_t_plus_1[index[:, 0], index[:, 1]] = p[-index.shape[0]:]` writes the
final-canvas score of actor `b` into every boundary cell `(t, b)` with
`t ≥ 1` and `done[t][b]`.  Because `p_t` (line 298) is a view of the same
storage, both sides of the later difference see the spliced values; this
function therefore is the one grid both `p_t_plus_1` and `p_t` read from. -/
def spliceFinalScores {γ : Type} (D : γ → ℚ) (finalCanvas : List γ)
    (scores : List (List ℚ)) (done : List (List Bool)) : List (List ℚ) :=
  match scores, done with
  | [], _ => []
  | s0 :: srest, [] => s0 :: srest
  | s0 :: srest, _ :: drest =>
      s0 :: List.zipWith (fun srow drow =>
        List.zipWith (fun sd f => if sd.2 then D f else sd.1)
          (srow.zip drow) finalCanvas) srest drest

/-- `rf(q[1:] - q[:-1])`: the differenced consecutive scores
(lines 303 and 307). -/
def consecDiff (rf : ℚ → ℚ) (q : List (List ℚ)) : List (List ℚ) :=
  List.zipWith (fun nxt prv => List.zipWith (fun a b => rf (a - b)) nxt prv)
    (q.drop 1) q

/-- `reward[1:] += r` (lines 304, 308): rows `1..T-1` of the reward grid get
the `T-1`-row correction grid added in. -/
def addIntoTail (reward r : List (List ℚ)) : List (List ℚ) :=
  match reward with
  | [] => []
  | r0 :: rest => r0 :: gridAdd rest r

/-- The `elif final_render_exists` branch (lines 310-314):
`reward[index[:, 0], index[:, 1]] += reward_func(D(final_render))` adds
`rf (D (finalCanvas b))` at every cell `(t, b)` with `t ≥ 1` and
`done[t][b]`. -/
def boundaryRewardAdd {γ : Type} (D : γ → ℚ) (rf : ℚ → ℚ) (finalCanvas : List γ)
    (reward : List (List ℚ)) (done : List (List Bool)) : List (List ℚ) :=
  match reward, done with
  | [], _ => []
  | r0 :: rrest, [] => r0 :: rrest
  | r0 :: rrest, _ :: drest =>
      r0 :: List.zipWith (fun rrow drow =>
        List.zipWith (fun rd f => if rd.2 then rd.1 + rf (D f) else rd.1)
          (rrow.zip drow) finalCanvas) rrest drest

/-- The reward channel right after the config-gated shaping block
(lines 280-314), before line 316. -/
def shapedReward {γ : Type} (use_tca : Bool) (D : γ → ℚ) (rf : ℚ → ℚ)
    (canvas : List (List γ)) (finalCanvas : List γ)
    (reward : List (List ℚ)) (done : List (List Bool)) : List (List ℚ) :=
  let finalRenderExists := anyDone (done.drop 1)
  if use_tca then
    if finalRenderExists then
      addIntoTail reward
        (consecDiff rf (spliceFinalScores D finalCanvas (scoreGrid D canvas) done))
    else
      addIntoTail reward (consecDiff rf (scoreGrid D canvas))
  else if finalRenderExists then
    boundaryRewardAdd D rf finalCanvas reward done
  else
    reward

/-- The reward channel handed to `vtrace.from_logits` (line 350): the shaped
reward after `env_outputs[1] += reward` (line 317, which doubles it — the
two names alias the same tensor) and the alignment slice `t[1:]`
(line 331). -/
def rewardsToVtrace {γ : Type} (use_tca : Bool) (D : γ → ℚ) (rf : ℚ → ℚ)
    (canvas : List (List γ)) (finalCanvas : List γ)
    (reward : List (List ℚ)) (done : List (List Bool)) : List (List ℚ) :=
  let r1 := shapedReward use_tca D rf canvas finalCanvas reward done
  (gridAdd r1 r1).drop 1

/-! ## Checkpoint save and restore (polybeast.py lines 668-679 and 738-754)

Each persisted component's `state_dict()` is opaque here (type `α`); what
the claims are about is which saved slot each component is restored from. -/

/-- The mutable training-side state the checkpoint logic touches. -/
structure TrainingState (α : Type) where
  model : α
  D : α
  optimizer : α
  D_optimizer : α
  scheduler : α
  D_scheduler : α
  stats : α
deriving DecidableEq, Repr

/-- The record written by `checkpoint()` via `torch.save` (lines 742-754). -/
structure CheckpointStates (α : Type) where
  model_state_dict : α
  D_state_dict : α
  optimizer_state_dict : α
  D_optimizer_state_dict : α
  scheduler_state_dict : α
  D_scheduler_state_dict : α
  stats : α
  flags : α
deriving DecidableEq, Repr

/-- `checkpoint()` (lines 738-754): each key holds the matching component's
state (`"scheduler_state_dict": scheduler.state_dict()`, etc.). -/
def saveCheckpoint {α : Type} (s : TrainingState α) (fl : α) : CheckpointStates α :=
  { model_state_dict := s.model
    D_state_dict := s.D
    optimizer_state_dict := s.optimizer
    D_optimizer_state_dict := s.D_optimizer
    scheduler_state_dict := s.scheduler
    D_scheduler_state_dict := s.D_scheduler
    stats := s.stats
    flags := fl }

/-- The restore block of `train` (lines 668-679), transcribed key by key.
Note lines 676-677 of the source:
`scheduler.load_state_dict(checkpoint_states["D_scheduler_state_dict"])` and
`D_scheduler.load_state_dict(checkpoint_states["scheduler_state_dict"])` —
the two scheduler slots are read crosswise. -/
def loadCheckpoint {α : Type} (c : CheckpointStates α) (s : TrainingState α) :
    TrainingState α :=
  { s with
    model := c.model_state_dict
    D := c.D_state_dict
    optimizer := c.optimizer_state_dict
    D_optimizer := c.D_optimizer_state_dict
    scheduler := c.D_scheduler_state_dict
    D_scheduler := c.scheduler_state_dict
    stats := c.stats }

/-! ## Monitor-loop exit and shutdown sequencing (polybeast.py lines 759-799)

The monitor loop sits in a `try` block; `except KeyboardInterrupt: pass`
and the `else` clause holds `checkpoint()`, so the final checkpoint runs
only when the loop leaves normally (step target reached).  Afterwards the
queues are closed and the threads joined.  The externally visible actions
are embedded as an event list. -/

/-- Externally visible shutdown actions of `train`. -/
inductive TrainEvent
  | checkpointWrite
  | closeInferenceBatcher
  | closeLearnerQueue
  | joinActorpoolThread
  | joinWorkerThread
deriving DecidableEq, Repr

/-- How the monitor loop of lines 759-790 ended. -/
inductive MonitorExit
  | stepTargetReached
  | keyboardInterrupt
deriving DecidableEq, Repr

/-- `checkpoint()` (lines 738-741): returns immediately when
`flags.disable_checkpoint` is set, otherwise writes the record. -/
def checkpointEvents (disable_checkpoint : Bool) : List TrainEvent :=
  if disable_checkpoint then [] else [TrainEvent.checkpointWrite]

/-- Lines 793-799: `inference_batcher.close()`, `learner_queue.close()`,
`actorpool_thread.flatten()`, then the learner/inference threads are joined. -/
def shutdownEvents (numThreads : ℕ) : List TrainEvent :=
  TrainEvent.closeInferenceBatcher :: TrainEvent.closeLearnerQueue ::
    TrainEvent.joinActorpoolThread ::
    List.replicate numThreads TrainEvent.joinWorkerThread

/-- The tail of `train` (lines 759-799): on `KeyboardInterrupt` the handler
is `pass`, so control goes straight to the close/join sequence; on normal
exit the `else` clause runs `checkpoint()` first. -/
def monitorExitEvents (disable_checkpoint : Bool) (e : MonitorExit)
    (numThreads : ℕ) : List TrainEvent :=
  (match e with
   | MonitorExit.stepTargetReached => checkpointEvents disable_checkpoint
   | MonitorExit.keyboardInterrupt => []) ++ shutdownEvents numThreads

/-! ## Discriminator learner's replay fill phase (polybeast.py lines 450-458)

One frame is embedded as one rational (a representative canvas entry):
the claim is about which affine map is applied to it.  The stream of
`next(replay_queue)` results is a list of canvas batches. -/

/-- The rescaling `(x - 0.5) / 0.5` of line 455. -/
def normalizeCanvas (x : ℚ) : ℚ := (x - 1 / 2) / (1 / 2)

/-- The `while len(replay_buffer) < flags.batch_size` loop of lines 453-456:
each pulled batch is pushed after `normalizeCanvas`. -/
def fillBuffer (bs : ℕ) : ReplayBuffer ℚ → List (List ℚ) → ReplayBuffer ℚ
  | rb, [] => rb
  | rb, o :: rest =>
      if rb.buffer.length < bs then
        fillBuffer bs (rb.push (o.map normalizeCanvas)) rest
      else rb

/-- Lines 450-456: the first batch pulled from the replay feed is pushed
raw (line 451), then the fill loop runs. -/
def replayFillPhase (bs : ℕ) (rb : ReplayBuffer ℚ) :
    List (List ℚ) → ReplayBuffer ℚ
  | [] => rb
  | o :: rest => fillBuffer bs (rb.push o) rest

/-- A small concrete buffer used to witness the `sample` theorem. -/
def sampleDemoBuffer : ReplayBuffer ℕ := ⟨[some 10, some 20], 5, 0⟩

/-- A concrete injective slot selection (the order-reversing draw) on
`sampleDemoBuffer`. -/
def sampleDemoSel : Fin 2 → Fin sampleDemoBuffer.buffer.length :=
  fun i => if (i : ℕ) = 0 then ⟨1, by decide⟩ else ⟨0, by decide⟩

/-! ## Theorems: ReplayBuffer length and position bookkeeping -/

theorem setSlice_length {α : Type} (l : List α) (a b : ℕ) (xs : List α) :
    (setSlice l a b xs).length
      = min a l.length + xs.length + (l.length - max a b) := by
  simp [setSlice]
  omega

/-- Preservation of the size/position invariant by one `push`, for a push
whose post-wrap remainder fits in the capacity
(`frame.length ≤ 2*c - position`). -/
theorem push_GS {α : Type} (tot : ℕ) (rb : ReplayBuffer α)
    (frame : List α) (hc : 0 < rb.capacity)
    (hlen : rb.buffer.length = min rb.capacity tot)
    (hpos : rb.position = tot % rb.capacity)
    (hsafe : frame.length ≤ 2 * rb.capacity - tot % rb.capacity) :
    (rb.push frame).capacity = rb.capacity ∧
    (rb.push frame).buffer.length = min rb.capacity (tot + frame.length) ∧
    (rb.push frame).position = (tot + frame.length) % rb.capacity := by
  obtain ⟨buf, cap, pos⟩ := rb
  simp only at hc hlen hpos hsafe ⊢
  have hp : pos < cap := by rw [hpos]; exact Nat.mod_lt _ hc
  have hmod : ∀ r : ℕ, (pos + r) % cap = (tot + r) % cap := by
    intro r
    rw [hpos, Nat.mod_add_mod]
  have hmodwrap : ∀ r : ℕ, cap - pos < r →
      (r - (cap - pos)) % cap = (tot + r) % cap := by
    intro r hr
    have h2 : pos + r = cap + (r - (cap - pos)) := by omega
    rw [← hmod r, h2, Nat.add_mod_left]
  simp only [ReplayBuffer.push, List.length_map]
  refine ⟨?_, ?_, ?_⟩
  · split_ifs <;> rfl
  · split_ifs with h1 h2 h3 h4 <;>
      simp only [setSlice_length, List.length_append, List.length_replicate,
        List.length_take, List.length_drop, List.length_map] <;>
      rcases Nat.lt_or_ge tot cap with ht | ht <;>
      first
      | (have htm : tot % cap = tot := Nat.mod_eq_of_lt ht
         rw [htm] at hpos hsafe
         omega)
      | (have hmin : min cap tot = cap := Nat.min_eq_left ht
         rw [hmin] at hlen
         omega)
  · split_ifs with h1 h2 h3 h4 <;>
      simp only [List.length_map] <;>
      first
      | (exact hmodwrap _ (by assumption))
      | (exact hmod _)

/-- The invariant of `push_GS`, folded over a whole sequence of pushes. -/
theorem GS_foldl {α : Type} (c : ℕ) (hc : 0 < c) :
    ∀ (pushes : List (List α)) (rb : ReplayBuffer α) (tot : ℕ),
      rb.capacity = c → rb.buffer.length = min c tot → rb.position = tot % c →
      safePushes c tot pushes = true →
      (pushes.foldl ReplayBuffer.push rb).capacity = c ∧
      (pushes.foldl ReplayBuffer.push rb).buffer.length
        = min c (tot + totalLen pushes) ∧
      (pushes.foldl ReplayBuffer.push rb).position = (tot + totalLen pushes) % c := by
  intro pushes
  induction pushes with
  | nil =>
      intro rb tot h1 h2 h3 _
      simpa [totalLen] using ⟨h1, h2, h3⟩
  | cons f rest ih =>
      intro rb tot h1 h2 h3 hsafe
      simp only [safePushes, Bool.and_eq_true, decide_eq_true_eq] at hsafe
      have hp := push_GS tot rb f (by rw [h1]; exact hc)
        (by rw [h1]; exact h2) (by rw [h1]; exact h3)
        (by rw [h1]; exact hsafe.1)
      have hrec := ih (rb.push f) (tot + f.length) (by rw [hp.1, h1])
        (by rw [hp.2.1, h1]) (by rw [hp.2.2, h1]) hsafe.2
      simpa [totalLen, List.foldl_cons, Nat.add_assoc] using hrec

/-- A safe sequence of pushes stays safe when truncated. -/
theorem safePushes_take {α : Type} (c : ℕ) :
    ∀ (pushes : List (List α)) (tot n : ℕ),
      safePushes c tot pushes = true → safePushes c tot (pushes.take n) = true := by
  intro pushes
  induction pushes with
  | nil => intro tot n _; simp [safePushes]
  | cons f rest ih =>
      intro tot n h
      cases n with
      | zero => simp [safePushes]
      | succ m =>
          simp only [safePushes, Bool.and_eq_true, decide_eq_true_eq] at h
          simp only [List.take_succ_cons, safePushes, Bool.and_eq_true,
            decide_eq_true_eq]
          exact ⟨h.1, ih (tot + f.length) m h.2⟩

/-- C2, counterexample: a `ReplayBuffer` of capacity 1 receiving a single
push of 3 frames ends with `size() = 2 > 1 = min(1, 3)` — the claimed
equality `size() == min(C, total_frames_pushed)` fails, and `size()`
exceeds the capacity. -/
theorem push_overflow_counterexample :
    ((ReplayBuffer.empty ℕ 1).push [0, 1, 2]).size = 2 ∧
    ¬ ((ReplayBuffer.empty ℕ 1).push [0, 1, 2]).size = min 1 3 := by
  decide

/-- C2 (corrected): for every ReplayBuffer of capacity `C > 0` and every
sequence of pushes in which each push's frame count is at most
`2*C - position` (the write position it meets, equal to `total % C`) —
equivalently, the part of the request left after the wrap never exceeds the
capacity — after each push `size() = min(C, total frames pushed so far)`.
Without that bound the equality fails (`push_overflow_counterexample`). -/
theorem size_eq_min_of_safePushes {α : Type} (c : ℕ) (hc : 0 < c)
    (pushes : List (List α)) (hsafe : safePushes c 0 pushes = true) (n : ℕ) :
    ((pushes.take n).foldl ReplayBuffer.push (ReplayBuffer.empty α c)).size
      = min c (totalLen (pushes.take n)) := by
  have h := GS_foldl c hc (pushes.take n) (ReplayBuffer.empty α c) 0 rfl
    (by simp [ReplayBuffer.empty]) (by simp [ReplayBuffer.empty])
    (safePushes_take c pushes 0 n hsafe)
  simpa [ReplayBuffer.size] using h.2.1

/-- Witness for `size_eq_min_of_safePushes`: capacity 2, pushes of 3 and 1
frames (the first push wraps), both prefixes checked. -/
theorem size_eq_min_of_safePushes_witness :
    ((([[5, 6, 7], [8]] : List (List ℕ)).take 2).foldl ReplayBuffer.push
        (ReplayBuffer.empty ℕ 2)).size
      = min 2 (totalLen (([[5, 6, 7], [8]] : List (List ℕ)).take 2)) :=
  size_eq_min_of_safePushes 2 (by decide) [[5, 6, 7], [8]] (by decide) 2

/-- C9 (confirmed): for capacity `C > 0`, any push leaves the write position
with `0 ≤ position < capacity` — both branches of `push` end with
`% capacity`. -/
theorem push_position_invariant {α : Type} (rb : ReplayBuffer α)
    (frame : List α) (hc : 0 < rb.capacity) :
    0 ≤ (rb.push frame).position ∧ (rb.push frame).position < rb.capacity := by
  obtain ⟨buf, cap, pos⟩ := rb
  simp only at hc ⊢
  refine ⟨Nat.zero_le _, ?_⟩
  simp only [ReplayBuffer.push]
  split_ifs <;> exact Nat.mod_lt _ hc

/-- Witness for `push_position_invariant`: a wrapping push into a
capacity-2 buffer. -/
theorem push_position_invariant_witness :
    0 ≤ ((ReplayBuffer.empty ℕ 2).push [1, 2, 3]).position ∧
    ((ReplayBuffer.empty ℕ 2).push [1, 2, 3]).position
      < (ReplayBuffer.empty ℕ 2).capacity :=
  push_position_invariant (ReplayBuffer.empty ℕ 2) [1, 2, 3] (by decide)

/-- When the buffer has never wrapped (`position = len(buffer)`) and the
request still fits (`len + request ≤ capacity`), a push appends the frames
and advances the position. -/
theorem push_append {α : Type} (rb : ReplayBuffer α) (frame : List α)
    (hpos : rb.position = rb.buffer.length)
    (hfit : rb.buffer.length + frame.length ≤ rb.capacity) :
    rb.push frame
      = ⟨rb.buffer ++ frame.map some, rb.capacity,
         (rb.buffer.length + frame.length) % rb.capacity⟩ := by
  obtain ⟨buf, cap, pos⟩ := rb
  simp only at hpos hfit ⊢
  subst hpos
  simp only [ReplayBuffer.push, List.length_map]
  rcases Nat.lt_or_ge buf.length cap with hlen | hlen
  · rw [if_neg (by omega : ¬ cap - buf.length < frame.length),
      if_pos (by omega : buf.length - buf.length < cap - buf.length),
      if_neg (by omega : ¬ cap < frame.length)]
    simp only [ReplayBuffer.mk.injEq]
    refine ⟨?_, trivial, trivial⟩
    simp only [setSlice, List.take_left]
    rw [Nat.max_eq_right (Nat.le_add_right _ _)]
    have hlen2 : (buf ++ List.replicate frame.length (none : Option α)).length
        = buf.length + frame.length := by simp
    rw [← hlen2, List.drop_length]
    simp
  · have hframe : frame = [] := List.length_eq_zero.mp (by omega)
    subst hframe
    simp only [List.map_nil, List.length_nil, Nat.add_zero]
    rw [if_neg (by omega : ¬ cap - buf.length < 0),
      if_neg (by omega : ¬ buf.length - buf.length < cap - buf.length)]
    simp only [ReplayBuffer.mk.injEq]
    refine ⟨?_, trivial, trivial⟩
    simp [setSlice, List.take_length, List.drop_length]

/-- After `k ≤ C` single-frame pushes of `0, 1, …, k-1` into a fresh buffer
of capacity `C`, the store is `[some 0, …, some (k-1)]` and the position is
`k % C`. -/
theorem pushSingles_prefix (c : ℕ) :
    ∀ k, k ≤ c →
      ((List.range k).foldl (fun rb i => rb.push [i]) (ReplayBuffer.empty ℕ c))
        = ⟨(List.range k).map some, c, k % c⟩ := by
  intro k
  induction k with
  | zero => intro _; simp [ReplayBuffer.empty]
  | succ m ih =>
      intro hk
      have hm : m < c := Nat.lt_of_succ_le hk
      rw [List.range_succ, List.foldl_append, ih (Nat.le_of_lt hm)]
      simp only [List.foldl_cons, List.foldl_nil]
      rw [push_append ⟨(List.range m).map some, c, m % c⟩ [m]
        (by simp [Nat.mod_eq_of_lt hm]) (by simp; omega)]
      simp [List.range_succ, Nat.mod_eq_of_lt hm]

/-- A single-frame push into a buffer that is exactly full, at position 0:
the oldest slot is overwritten in place. -/
theorem push_full_single (c : ℕ) (hc : 0 < c) (l : List (Option ℕ))
    (hl : l.length = c) (x : ℕ) :
    (ReplayBuffer.mk l c 0).push [x] = ⟨some x :: l.drop 1, c, 1 % c⟩ := by
  simp only [ReplayBuffer.push, List.length_map, List.length_cons,
    List.length_nil, Nat.sub_zero, Nat.zero_add, hl]
  rw [if_neg (by omega : ¬ c < 1), if_neg (by omega : ¬ c < c)]
  simp only [ReplayBuffer.mk.injEq]
  refine ⟨?_, trivial, trivial⟩
  simp [setSlice]

/-- C7 (confirmed): pushing the `C+1` pairwise-distinct single frames
`0, 1, …, C` one at a time into a fresh buffer of capacity `C > 0`, the
stored contents are a permutation (multiset equality, no order asserted) of
the last `C` frames `1, …, C`, and the very first frame `0` is no longer
present. -/
theorem push_capacity_plus_one_singles (c : ℕ) (hc : 0 < c) :
    (((List.range (c + 1)).foldl (fun rb i => rb.push [i])
        (ReplayBuffer.empty ℕ c)).buffer).Perm ((List.range' 1 c).map some) ∧
    some 0 ∉ ((List.range (c + 1)).foldl (fun rb i => rb.push [i])
        (ReplayBuffer.empty ℕ c)).buffer := by
  have hfold : (List.range (c + 1)).foldl (fun rb i => rb.push [i])
      (ReplayBuffer.empty ℕ c)
      = (ReplayBuffer.mk ((List.range c).map some) c 0).push [c] := by
    rw [List.range_succ, List.foldl_append, pushSingles_prefix c c le_rfl]
    simp [Nat.mod_self]
  rw [hfold, push_full_single c hc _ (by simp) c]
  obtain ⟨m, rfl⟩ : ∃ m, c = m + 1 := ⟨c - 1, by omega⟩
  have hrange : List.range (m + 1) = 0 :: List.range' 1 m := by
    rw [List.range_eq_range']
    exact List.range'_succ 0 m 1
  have hdrop : (((List.range (m + 1)).map some).drop 1)
      = (List.range' 1 m).map some := by
    rw [hrange]
    simp
  have htarget : List.range' 1 (m + 1) = List.range' 1 m ++ [1 + 1 * m] :=
    List.range'_concat 1 m
  have hperm : (some (m + 1) :: (List.range' 1 m).map some).Perm
      ((List.range' 1 (m + 1)).map some) := by
    rw [htarget, List.map_append, List.map_singleton]
    have h1m : 1 + 1 * m = m + 1 := by omega
    rw [h1m]
    exact (List.perm_append_singleton (some (m + 1))
      ((List.range' 1 m).map some)).symm
  refine ⟨by simpa [hdrop] using hperm, ?_⟩
  intro hmem
  simp only at hmem
  rw [hdrop] at hmem
  rw [hperm.mem_iff] at hmem
  rcases List.mem_map.mp hmem with ⟨y, hy, hsome⟩
  have hy0 : y = 0 := Option.some_injective ℕ hsome
  subst hy0
  have := List.mem_range'.mp hy
  omega

/-- Witness for `push_capacity_plus_one_singles` at capacity 3: pushing
`0,1,2,3` one at a time leaves a permutation of `1,2,3` without `0`. -/
theorem push_capacity_plus_one_singles_witness :
    (((List.range (3 + 1)).foldl (fun rb i => rb.push [i])
        (ReplayBuffer.empty ℕ 3)).buffer).Perm ((List.range' 1 3).map some) ∧
    some 0 ∉ ((List.range (3 + 1)).foldl (fun rb i => rb.push [i])
        (ReplayBuffer.empty ℕ 3)).buffer :=
  push_capacity_plus_one_singles 3 (by decide)

/-- C8 (confirmed): with the precondition `stored-count ≥ k` (implied by the
injective slot selection `sel : Fin k → Fin size`), `sample(k)` returns `k`
frames drawn from `k` pairwise-distinct buffer slots, all of them stored in
the buffer; and when `k` equals `size()`, the result is a permutation of
the entire stored contents (multiset equality, order unspecified). -/
theorem sample_distinct_and_perm {α : Type} (rb : ReplayBuffer α) (k : ℕ)
    (sel : Fin k → Fin rb.buffer.length) (hinj : Function.Injective sel) :
    k ≤ rb.buffer.length ∧
    (rb.sample k sel).length = k ∧
    (∀ x ∈ rb.sample k sel, x ∈ rb.buffer) ∧
    (k = rb.buffer.length → (rb.sample k sel).Perm rb.buffer) := by
  refine ⟨?_, ?_, ?_, ?_⟩
  · simpa using Fintype.card_le_of_injective sel hinj
  · simp [ReplayBuffer.sample]
  · intro x hx
    rcases (List.mem_ofFn _ x).mp hx with ⟨i, hi⟩
    rw [← hi]
    show rb.buffer.get (sel i) ∈ rb.buffer
    exact rb.buffer.get_mem (sel i).1 (sel i).2
  · intro hk
    subst hk
    have hsurj : Function.Surjective sel :=
      Finite.injective_iff_surjective.mp hinj
    have hperm : ((List.finRange rb.buffer.length).map sel).Perm
        (List.finRange rb.buffer.length) := by
      refine List.perm_of_nodup_nodup_toFinset_eq
        ((List.nodup_finRange _).map hinj) (List.nodup_finRange _) ?_
      ext i
      simp only [List.mem_toFinset, List.mem_map, List.mem_finRange,
        true_and, iff_true]
      exact hsurj i
    have : rb.sample rb.buffer.length sel
        = ((List.finRange rb.buffer.length).map sel).map rb.buffer.get := by
      rw [ReplayBuffer.sample, List.ofFn_eq_map, List.map_map]
      rfl
    rw [this]
    have hid : (List.finRange rb.buffer.length).map rb.buffer.get
        = rb.buffer := by
      rw [← List.ofFn_eq_map]
      exact List.ofFn_get rb.buffer
    have hmapped := hperm.map rb.buffer.get
    rw [hid] at hmapped
    exact hmapped

/-- Witness for `sample_distinct_and_perm`: sampling both slots of a
two-frame buffer through the order-reversing selection permutes the stored
contents. -/
theorem sample_distinct_and_perm_witness :
    (sampleDemoBuffer.sample 2 sampleDemoSel).Perm sampleDemoBuffer.buffer :=
  (sample_distinct_and_perm sampleDemoBuffer 2 sampleDemoSel
    (by decide)).2.2.2 (by decide)

/-- Every batch consumed by the fill loop is pushed through
`normalizeCanvas`: as long as the buffer has spare capacity, the stored
contents grow only by normalized frames of some consumed prefix. -/
theorem fillBuffer_pushes_normalized (bs : ℕ) :
    ∀ (stream : List (List ℚ)) (rb : ReplayBuffer ℚ),
      rb.position = rb.buffer.length →
      rb.buffer.length + totalLen stream < rb.capacity →
      ∃ k, (fillBuffer bs rb stream).buffer
        = rb.buffer ++ ((stream.take k).flatten.map
            (fun x => some (normalizeCanvas x))) := by
  intro stream
  induction stream with
  | nil =>
      intro rb _ _
      exact ⟨0, by simp [fillBuffer]⟩
  | cons o rest ih =>
      intro rb hpos hcap
      by_cases hfill : rb.buffer.length < bs
      · have hfit : rb.buffer.length + (o.map normalizeCanvas).length
            ≤ rb.capacity := by
          simp only [List.length_map]
          have : totalLen (o :: rest) = o.length + totalLen rest := by
            simp [totalLen]
          omega
        have hpush := push_append rb (o.map normalizeCanvas) hpos hfit
        have hlt : rb.buffer.length + (o.map normalizeCanvas).length
            < rb.capacity := by
          simp only [List.length_map]
          have : totalLen (o :: rest) = o.length + totalLen rest := by
            simp [totalLen]
          omega
        have hpos' : (rb.push (o.map normalizeCanvas)).position
            = (rb.push (o.map normalizeCanvas)).buffer.length := by
          rw [hpush]
          simp only [List.length_append, List.length_map]
          rw [Nat.mod_eq_of_lt (by simpa [List.length_map] using hlt)]
        have hcap' : (rb.push (o.map normalizeCanvas)).buffer.length
            + totalLen rest < (rb.push (o.map normalizeCanvas)).capacity := by
          rw [hpush]
          simp only [List.length_append, List.length_map]
          have : totalLen (o :: rest) = o.length + totalLen rest := by
            simp [totalLen]
          omega
        rcases ih (rb.push (o.map normalizeCanvas)) hpos' hcap' with ⟨k, hk⟩
        refine ⟨k + 1, ?_⟩
        rw [fillBuffer, if_pos hfill, hk, hpush]
        simp [List.take_succ_cons, List.flatten_cons, List.map_append,
          Function.comp, List.append_assoc]
      · exact ⟨0, by rw [fillBuffer, if_neg hfill]; simp⟩

/-- C10 (confirmed): in the discriminator learner's replay phase
(lines 450-456), the first batch pulled from the replay feed is pushed with
its raw canvas values unchanged, and every batch pulled inside the
fill-until-batch-size loop is pushed after the rescaling `(x - 0.5) / 0.5`;
the stored contents are the raw first batch followed by normalized frames
of some consumed prefix of the remaining feed — two different
normalizations can therefore coexist in the buffer. -/
theorem replayFillPhase_mixed_normalization (c bs : ℕ) (o : List ℚ)
    (rest : List (List ℚ))
    (hcap : o.length + totalLen rest < c) :
    ∃ k, (replayFillPhase bs (ReplayBuffer.empty ℚ c) (o :: rest)).buffer
      = o.map some
        ++ ((rest.take k).flatten.map (fun x => some (normalizeCanvas x))) := by
  have hpush := push_append (ReplayBuffer.empty ℚ c) o rfl
    (by simp [ReplayBuffer.empty]; omega)
  have hlen : o.length < c := by
    have : totalLen rest ≤ o.length + totalLen rest := Nat.le_add_left _ _
    omega
  have hpos' : ((ReplayBuffer.empty ℚ c).push o).position
      = ((ReplayBuffer.empty ℚ c).push o).buffer.length := by
    rw [hpush]
    simp [ReplayBuffer.empty, Nat.mod_eq_of_lt hlen]
  have hcap' : ((ReplayBuffer.empty ℚ c).push o).buffer.length + totalLen rest
      < ((ReplayBuffer.empty ℚ c).push o).capacity := by
    rw [hpush]
    simp only [ReplayBuffer.empty, List.length_append, List.length_map,
      List.length_nil, Nat.zero_add, List.nil_append]
    omega
  rcases fillBuffer_pushes_normalized bs rest ((ReplayBuffer.empty ℚ c).push o)
    hpos' hcap' with ⟨k, hk⟩
  refine ⟨k, ?_⟩
  rw [replayFillPhase, hk, hpush]
  simp [ReplayBuffer.empty]

/-- Witness for `replayFillPhase_mixed_normalization`: feed batches `[0]`
then `[0]` with batch size 2 and capacity 10 — the buffer ends holding the
raw `0` and the normalized `-1` for the same raw canvas value. -/
theorem replayFillPhase_mixed_normalization_witness :
    ∃ k, (replayFillPhase 2 (ReplayBuffer.empty ℚ 10) ([0] :: [[0]])).buffer
      = ([(0 : ℚ)].map some)
        ++ ((([[0]] : List (List ℚ)).take k).flatten.map
            (fun x => some (normalizeCanvas x))) :=
  replayFillPhase_mixed_normalization 10 2 [0] [[0]] (by decide)

/-- With `use_tca` disabled and no timestep of `done[1:]` an episode
boundary, the reward channel handed to V-trace is the elementwise double of
the incoming reward channel (rows `1..T-1`), not the incoming channel
itself: the shaping block passes the rewards through, and line 317 then
adds the reward tensor to itself. -/
theorem rewards_doubled_no_boundary {γ : Type} (D : γ → ℚ) (rf : ℚ → ℚ)
    (canvas : List (List γ)) (finalCanvas : List γ)
    (reward : List (List ℚ)) (done : List (List Bool))
    (hnb : anyDone (done.drop 1) = false) :
    rewardsToVtrace false D rf canvas finalCanvas reward done
      = (gridAdd reward reward).drop 1 := by
  rw [List.drop_one] at hnb
  simp [rewardsToVtrace, shapedReward, List.drop_one, hnb]

/-- C1 (code_bug): with temporal-credit-assignment disabled and no episode
boundary in the batch (`T = 2`, `B = 1`, input rewards `[[0], [1]]`, all
`done` false), the shaping block leaves the rewards untouched, but
`env_outputs[1] += reward` (line 317) adds the reward tensor to itself —
the two names alias the same object — so V-trace receives `[[2]]` instead
of the input channel's `[[1]]`. -/
theorem rewards_doubled_at_failing_input :
    rewardsToVtrace false (fun x : ℚ => x) (fun x => x)
        [[0], [0]] [0] [[0], [1]] [[false], [false]] = [[2]] ∧
    ([[0], [1]] : List (List ℚ)).drop 1 = [[1]] ∧
    ([[2]] : List (List ℚ)) ≠ [[1]] := by
  refine ⟨?_, rfl, by norm_num⟩
  rw [rewards_doubled_no_boundary (fun x : ℚ => x) (fun x => x)
    [[0], [0]] [0] [[0], [1]] [[false], [false]] (by decide)]
  norm_num [gridAdd]

/-- C3 (code_bug): a checkpoint round-trip restores model, discriminator,
both optimizers and stats from their own slots, but the two scheduler
states come back crosswise (lines 676-677 read the swapped keys); at a
concrete state whose two scheduler states differ (5 and 6), the restored
policy scheduler holds 6, not its saved 5. -/
theorem checkpoint_scheduler_swap :
    (∀ (s t : TrainingState ℕ) (fl : ℕ),
      (loadCheckpoint (saveCheckpoint s fl) t).model = s.model ∧
      (loadCheckpoint (saveCheckpoint s fl) t).D = s.D ∧
      (loadCheckpoint (saveCheckpoint s fl) t).optimizer = s.optimizer ∧
      (loadCheckpoint (saveCheckpoint s fl) t).D_optimizer = s.D_optimizer ∧
      (loadCheckpoint (saveCheckpoint s fl) t).stats = s.stats ∧
      (loadCheckpoint (saveCheckpoint s fl) t).scheduler = s.D_scheduler ∧
      (loadCheckpoint (saveCheckpoint s fl) t).D_scheduler = s.scheduler) ∧
    (loadCheckpoint (saveCheckpoint ⟨1, 2, 3, 4, 5, 6, 7⟩ 0)
        ⟨0, 0, 0, 0, 0, 0, 0⟩).scheduler = 6 ∧
    ¬ (loadCheckpoint (saveCheckpoint ⟨1, 2, 3, 4, 5, 6, 7⟩ 0)
        ⟨0, 0, 0, 0, 0, 0, 0⟩).scheduler
      = (TrainingState.mk 1 2 3 4 5 6 7 : TrainingState ℕ).scheduler := by
  refine ⟨fun s t fl => ⟨rfl, rfl, rfl, rfl, rfl, rfl, rfl⟩, rfl, by decide⟩

/-- C6, counterexample: with checkpointing enabled, an interrupt observed in
the monitor loop produces a shutdown trace with no checkpoint write at all
— the claimed final checkpoint before closing the queues does not happen. -/
theorem interrupt_shutdown_counterexample :
    TrainEvent.checkpointWrite ∉ monitorExitEvents false
      MonitorExit.keyboardInterrupt 4 := by
  decide

/-- C6 (corrected): when a `KeyboardInterrupt` is observed in the monitor
loop's wait, the orchestrator proceeds straight to shutdown — closing the
inference batcher and the learner queue and joining the threads — without
writing a final checkpoint; the final checkpoint (when enabled) is written
only on normal completion of the monitor loop, because `checkpoint()` sits
in the `try` statement's `else` clause. -/
theorem interrupt_shutdown_no_checkpoint (d : Bool) (n : ℕ) :
    monitorExitEvents d MonitorExit.keyboardInterrupt n = shutdownEvents n ∧
    TrainEvent.checkpointWrite ∉ monitorExitEvents d
      MonitorExit.keyboardInterrupt n ∧
    monitorExitEvents false MonitorExit.stepTargetReached n
      = TrainEvent.checkpointWrite :: shutdownEvents n := by
  refine ⟨rfl, ?_, rfl⟩
  simp only [monitorExitEvents, shutdownEvents, List.nil_append, List.mem_cons,
    List.mem_replicate]
  intro h
  rcases h with h | h | h | h
  · exact absurd h (by decide)
  · exact absurd h (by decide)
  · exact absurd h (by decide)
  · exact absurd h.2 (by decide)

/-- C5, counterexample: with `baseline_cost = 1`, value targets `[1, 1, 1]`
and value estimates `[0, 0, 0]`, the code's baseline term is
`0.5 * (1+1+1) = 3/2`, while `baseline_cost ×` the mean of the squared
errors is `1` — the baseline component is not the claimed mean-squared
aggregation. -/
theorem baseline_loss_not_mse :
    baselineLossTerm 1 [1, 1, 1] [0, 0, 0]
      ≠ 1 * meanSquaredErrorSpec
          (List.zipWith (fun a b => a - b) [1, 1, 1] [0, 0, 0]) := by
  norm_num [baselineLossTerm, compute_baseline_loss, meanSquaredErrorSpec]

/-- C5 (corrected): the baseline component of the total loss equals
`baseline_cost × ½ × Σ (vs − baseline)²` — a half-sum of the squared
value-target errors, i.e. `baseline_cost × (n/2) ×` the mean squared error
over the `n` retained entries — not `baseline_cost ×` the mean itself. -/
theorem baseline_loss_is_half_sum (cost : ℚ) (vs baseline : List ℚ)
    (h : List.zipWith (fun a b => a - b) vs baseline ≠ []) :
    baselineLossTerm cost vs baseline
      = cost * (((List.zipWith (fun a b => a - b) vs baseline).length : ℚ) / 2)
          * meanSquaredErrorSpec (List.zipWith (fun a b => a - b) vs baseline) := by
  set e := List.zipWith (fun a b => a - b) vs baseline with he
  have hlen : (e.length : ℚ) ≠ 0 := by
    have : e.length ≠ 0 := fun h0 => h (List.length_eq_zero.mp h0)
    exact_mod_cast Nat.cast_ne_zero.mpr this
  rw [baselineLossTerm, compute_baseline_loss, meanSquaredErrorSpec, ← he]
  field_simp
  ring

/-- Witness for `baseline_loss_is_half_sum` at cost 1, `vs = [2]`,
`baseline = [0]`. -/
theorem baseline_loss_is_half_sum_witness :
    baselineLossTerm 1 [2] [0]
      = 1 * (((List.zipWith (fun a b => a - b) [(2 : ℚ)] [0]).length : ℚ) / 2)
          * meanSquaredErrorSpec (List.zipWith (fun a b => a - b) [(2 : ℚ)] [0]) :=
  baseline_loss_is_half_sum 1 [2] [0] (by decide)

/-- C4, counterexample: at the score difference `p = 1/2` the code's
`reward_func` gives `log(1/2 + ε) − log(1/2 − ε) > 0`, while the claimed
formula `log(relu(p)+ε) − log(relu(1−p)+ε)` evaluates to
`log(1/2 + ε) − log(1/2 + ε) = 0`: the two branches do not both apply relu
and add ε inside the logarithm. -/
theorem reward_func_counterexample :
    reward_func (1 / 2) ≠ rewardFuncSpec (1 / 2) := by
  have heps : (0 : ℝ) < eps := by norm_num [eps]
  have hrelu1 : relu ((1 : ℝ) / 2 + eps) = 1 / 2 + eps := by
    rw [relu]
    exact max_eq_left (by norm_num [eps])
  have hrelu2 : relu ((1 : ℝ) / 2) = 1 / 2 := by
    rw [relu]
    exact max_eq_left (by norm_num)
  have hone : (1 : ℝ) - 1 / 2 = 1 / 2 := by norm_num
  have hspec : rewardFuncSpec (1 / 2) = 0 := by
    rw [rewardFuncSpec, hone, hrelu2, sub_self]
  have hcode : reward_func (1 / 2)
      = Real.log (1 / 2 + eps) - Real.log (1 / 2 - eps) := by
    rw [reward_func, hrelu1]
    have harg : (1 : ℝ) - (1 / 2 + eps) = 1 / 2 - eps := by ring
    rw [harg]
  rw [hcode, hspec]
  have hlt : Real.log (1 / 2 - eps) < Real.log (1 / 2 + eps) :=
    Real.log_lt_log (by norm_num [eps]) (by norm_num [eps])
  intro hzero
  have := sub_eq_zero.mp hzero
  rw [this] at hlt
  exact lt_irrefl _ hlt

/-- C4 (corrected): `reward_func` computes
`log(relu(p + ε)) − log(1 − relu(p + ε))`: ε is added to the score before a
single relu, and the negative branch is 1 minus that rectified value, with
no relu and no ε of its own; for a nonnegative score it is
`log(p + ε) − log(1 − (p + ε))`. -/
theorem reward_func_resolved (p : ℝ) (hp : 0 ≤ p) :
    reward_func p = Real.log (p + eps) - Real.log (1 - (p + eps)) := by
  have heps : (0 : ℝ) < eps := by norm_num [eps]
  have hrelu : relu (p + eps) = p + eps := by
    rw [relu]
    exact max_eq_left (by positivity)
  rw [reward_func, hrelu]

/-- Witness for `reward_func_resolved` at `p = 0`. -/
theorem reward_func_resolved_witness :
    reward_func 0 = Real.log (0 + eps) - Real.log (1 - (0 + eps)) :=
  reward_func_resolved 0 le_rfl

end Polybeast
